import Mathlib

/-!
# Verification of the bandcrash build-orchestration core

This file embeds the task-scheduling core of the bandcrash repository
(`bandcrash/__init__.py`, `bandcrash/cli.py`, `bandcrash/cdda.py`,
`bandcrash/util.py`, `bandcrash/options.py`) as executable Lean
definitions and proves the frozen claims about it.

Modelling conventions:

* A `concurrent.futures.Future` is identified by the `Nat` submission
  index.  `process` is embedded as a pure function that records, in
  submission order, every work unit submitted to the pool together with
  the snapshot of dependency handles its body waits on first
  (`wait_futures` is called as the first action of every dependent body,
  so a unit's body runs only after all handles in its `deps` are
  terminal).  The `futures` defaultdict-of-lists and the `protections`
  defaultdict-of-sets are modelled as functions from the string key.
* Thread-pool execution is modelled two ways: a `ValidSchedule` is any
  completion order compatible with the blocking waits, and
  `runResults` computes the (schedule-independent) outcome of every
  future: a body runs iff no prerequisite errored, and
  `Future.result()` re-raises the first prerequisite error by identity,
  which `runResults` tracks as the root unit's index.
* External collaborators (ffmpeg, mutagen tagging, image rendition,
  the camptown player, `unidecode` inside `slugify_filename`, md5) are
  opaque; the `Env` structure carries them as oracle functions.
  Filesystem side effects other than the ones the claims are about
  (directory creation) are not tracked.
-/

namespace Bandcrash

/-- Lyrics value of a track: either a string (a filename, or inline
text) or a list of lines, as in the album JSON and `util.read_lines`. -/
inductive Lyrics where
  | str (s : String)
  | lines (ls : List String)
deriving DecidableEq

/-- A track record (`album['tracks'][i]`), with the caller-supplied
fields used by the orchestration core plus the derived fields the
pipeline adds (`artwork_path`, `preview_mp3`).  `hidden` models the
truthiness of `track.get('hidden')` and `preview` models
`track.get('preview', True)`. -/
structure Track where
  filename : Option String := none
  title : Option String := none
  artist : Option String := none
  genre : Option String := none
  artwork : Option String := none
  lyrics : Option Lyrics := none
  hidden : Bool := false
  preview : Bool := true
  artwork_path : Option String := none
  preview_mp3 : Option String := none
deriving DecidableEq

/-- The album-declared configuration surface read by `process`
(`album.get(...)` for the coercion loop) plus the track list. -/
structure Album where
  title : Option String := none
  artist : Option String := none
  artwork : Option String := none
  butler_target : Option String := none
  do_preview : Option Bool := none
  do_mp3 : Option Bool := none
  do_ogg : Option Bool := none
  do_flac : Option Bool := none
  do_zip : Option Bool := none
  do_cdda : Option Bool := none
  do_butler : Option Bool := none
  do_cleanup : Option Bool := none
  tracks : List Track := []

/-- `options.Options`: caller-supplied configuration.  The tri-state
target booleans are `Option Bool` (`None` = defer to the album).
`butler_path` is the tool path (`None`/empty means not found). -/
structure Options where
  input_dir : String := ""
  output_dir : String := ""
  do_preview : Option Bool := none
  do_mp3 : Option Bool := none
  do_ogg : Option Bool := none
  do_flac : Option Bool := none
  do_zip : Option Bool := none
  do_cdda : Option Bool := none
  do_butler : Option Bool := none
  do_cleanup : Option Bool := none
  butler_path : Option String := none
  butler_target : Option String := none

/-- Oracles for the external collaborators the scheduler invokes. -/
structure Env where
  /-- `shutil.which(config.butler_path)` succeeding. -/
  butler_found : Bool := false
  /-- `util.file_md5` of an input file (used for preview filenames). -/
  md5 : String → String := fun _ => "d41d8cd9"
  /-- `util.slugify_filename`; wraps the external `unidecode` library,
  so it is kept opaque. -/
  slug : String → String := fun s => s
  /-- The set of filenames `make_web_preview`'s body produces and adds
  to the preview protections (artwork renditions via
  `images.generate_rendition` plus the files `camptown.Player.convert`
  reports). -/
  previewFiles : List String := []

/-- Python truthiness of an optional string (`''` and `None` falsy). -/
def truthyStr : Option String → Bool
  | some s => s ≠ ""
  | none => false

/-- `os.path.join` for our purposes (no absolute-path second argument
appears in the modelled paths). -/
def pjoin (a b : String) : String := a ++ "/" ++ b

/-- `ALL_TARGETS` from `bandcrash/__init__.py`. -/
def ALL_TARGETS : List String := ["mp3", "ogg", "flac", "preview", "cdda"]

/-- `DIST_TARGETS` from `bandcrash/__init__.py`. -/
def DIST_TARGETS : List String := ["mp3", "ogg", "flac", "preview"]

/-- The coercion loop of `process` (lines 498-514): for each attribute,
if the caller value is `None`, fall back to the album value, then to the
built-in default.  Defaults as written in the source tuple:
`preview/mp3/ogg/flac/zip/cleanup` default `True`, `cdda` defaults
`False`, and `butler` defaults to `bool(album.get('butler_target'))`.
The string attribute `butler_target` defaults to the empty string; the
channel-name string attribute coerced right after it in the source
plays no role in any claim and is left out of the model.  Each
statement of the source loop (set the attribute only when it is
`None`) is written as the equivalent total field update
`some (caller.getD (albumValue.getD default))`. -/
def coerceConfig (cfg : Options) (album : Album) : Options :=
  { cfg with
    do_preview := some (cfg.do_preview.getD (album.do_preview.getD true))
    do_mp3 := some (cfg.do_mp3.getD (album.do_mp3.getD true))
    do_ogg := some (cfg.do_ogg.getD (album.do_ogg.getD true))
    do_flac := some (cfg.do_flac.getD (album.do_flac.getD true))
    do_zip := some (cfg.do_zip.getD (album.do_zip.getD true))
    do_cdda := some (cfg.do_cdda.getD (album.do_cdda.getD false))
    do_butler := some (cfg.do_butler.getD (album.do_butler.getD (truthyStr album.butler_target)))
    do_cleanup := some (cfg.do_cleanup.getD (album.do_cleanup.getD true))
    butler_target := some (cfg.butler_target.getD (album.butler_target.getD "")) }

/-- `getattr(config, 'do_' + target)` for the five members of
`ALL_TARGETS`. -/
def Options.doFlag (cfg : Options) : String → Option Bool
  | "mp3" => cfg.do_mp3
  | "ogg" => cfg.do_ogg
  | "flac" => cfg.do_flac
  | "preview" => cfg.do_preview
  | "cdda" => cfg.do_cdda
  | _ => none

/-- `album.get('do_' + target)` for the five members of `ALL_TARGETS`. -/
def Album.doFlag (album : Album) : String → Option Bool
  | "mp3" => album.do_mp3
  | "ogg" => album.do_ogg
  | "flac" => album.do_flac
  | "preview" => album.do_preview
  | "cdda" => album.do_cdda
  | _ => none

/-- The kind of a submitted work unit (which leaf function the pool
runs).  `encode fmt idx` is `encode_mp3`/`encode_ogg`/`encode_flac`/
`encode_preview_mp3` for track number `idx` (1-based); `buildPreview`
is `make_web_preview`; `clean fmt` is `clean_subdir`; `butler fmt` is
`submit_butler`; `zipf fmt` is `make_zipfile`; the `cdda*` kinds are
the `CDWriter` steps submitted by `cdda.encode` (`cddaAdd i` uses the
0-based track position, matching the loop in `cdda.encode`). -/
inductive UnitKind where
  | encode (fmt : String) (idx : Nat)
  | buildPreview
  | clean (fmt : String)
  | butler (fmt : String)
  | zipf (fmt : String)
  | cddaAdd (idx : Nat)
  | cddaCommit
  | cddaWriteCue
  | cddaWriteKunaki
  | cddaWriteTsv
deriving DecidableEq

/-- A submitted work unit.  `id` is the submission index (the future
handle), `key` the `futures` dict key it is appended under, `deps` the
snapshot of future handles its body blocks on as its first action,
`bodyRegs` the protection filenames its body registers while running,
and `produces` the output filenames it writes into its format's output
directory. -/
structure WorkUnit where
  id : Nat
  key : String
  kind : UnitKind
  deps : List Nat
  bodyRegs : List String := []
  produces : List String := []
deriving DecidableEq

/-- The submission-time state threaded through `process`: the next
future index, the submitted units in order, the `futures` dict and the
submission-time contents of the `protections` dict (the names added by
synchronous `protections[fmt].add(...)` calls on the submitting
thread; names added inside unit bodies are in `bodyRegs` instead). -/
structure PState where
  nextId : Nat := 0
  units : List WorkUnit := []
  futures : String → List Nat := fun _ => []
  protections : String → List String := fun _ => []

/-- `pool.submit(...)` plus `futures[key].append(...)`. -/
def PState.submit (st : PState) (key : String) (kind : UnitKind) (deps : List Nat)
    (bodyRegs : List String) (produces : List String) : PState :=
  { st with
    nextId := st.nextId + 1
    units := st.units ++ [{ id := st.nextId, key := key, kind := kind, deps := deps,
                            bodyRegs := bodyRegs, produces := produces }]
    futures := fun k => if k = key then st.futures key ++ [st.nextId] else st.futures k }

/-- A synchronous `protections[fmt].add(name)` on the submitting
thread (set semantics are recovered by only ever reasoning about
membership). -/
def PState.protect (st : PState) (fmt name : String) : PState :=
  { st with protections := fun k => if k = fmt then st.protections fmt ++ [name]
                                    else st.protections k }

/-- The base filename computed per track in `encode_tracks`
(`f'{idx:02d} '` plus optional `'{artist} - '` plus the title, run
through `util.slugify_filename`). -/
def base_filename (env : Env) (idx : Nat) (t : Track) : String :=
  env.slug ((if idx < 10 then "0" else "") ++ toString idx ++ " " ++
    (match t.artist with
     | some a => a ++ " - "
     | none => "") ++ t.title.getD "")

/-- One `if config.do_<fmt>: enqueue(fmt, ...)` block of
`encode_tracks`.  Crucially, `out_path(fmt)` is evaluated as an
argument *before* `enqueue` checks `input_filename`, so the
protections registration happens even for file-less tracks, while the
unit itself is only submitted when the track has an input file. -/
def encode_format_step (fmt : String) (doIt hasInput : Bool) (base : String)
    (idx : Nat) (st : PState) : PState :=
  if doIt then
    if hasInput then
      (st.protect fmt (base ++ "." ++ fmt)).submit fmt (.encode fmt idx) [] []
        [base ++ "." ++ fmt]
    else st.protect fmt (base ++ "." ++ fmt)
  else st

/-- The submissions of one iteration of the track loop in
`encode_tracks` (the in-place track mutations of the same loop are
modelled by `track_prepare` below).  The preview unit is only enqueued
for non-hidden, preview-eligible tracks with an input file, and its
output filename (md5 of the input) is registered inside the unit body
(`encode_preview_mp3`), not at submission time. -/
def encode_track_step (env : Env) (cfg : Options) (st : PState) (it : Nat × Track) : PState :=
  let idx := it.1
  let t := it.2
  let base := base_filename env idx t
  let hasInput := truthyStr t.filename
  let st := encode_format_step "mp3" (cfg.do_mp3.getD false) hasInput base idx st
  let st := encode_format_step "ogg" (cfg.do_ogg.getD false) hasInput base idx st
  let st := encode_format_step "flac" (cfg.do_flac.getD false) hasInput base idx st
  if cfg.do_preview.getD false && hasInput && !t.hidden && t.preview then
    let pname := env.md5 (pjoin cfg.input_dir (t.filename.getD "")) ++ ".mp3"
    st.submit "preview" (.encode "preview" idx) [] [pname] [pname]
  else st

/-- `encode_tracks`: the track loop, with 1-based enumeration. -/
def encode_tracks (env : Env) (cfg : Options) (album : Album) (st : PState) : PState :=
  (List.enumFrom 1 album.tracks).foldl (encode_track_step env cfg) st

/-- The `add_track` chain of `cdda.encode`: each unit is submitted
with `wait_for` = the previous unit's future, so its body's first
action is to block on it.  Every add appends raw audio to
`album.bin`. -/
def cdda_add_chain (st : PState) (prev : Option Nat) (k : Nat) :
    List Track → PState × Option Nat
  | [] => (st, prev)
  | _ :: rest =>
    let i := st.nextId
    cdda_add_chain (st.submit "cdda" (.cddaAdd k) prev.toList [] ["album.bin"])
      (some i) (k + 1) rest

/-- `cdda.encode`: `CDWriter.__init__` registers `album.bin` in the
cdda protections synchronously (on the submitting thread); then one
`add_track` unit per track, chained; then `commit` waiting on the last
add; then the three writers (`write_cue`, `write_kunaki_cue`,
`write_tsv`), each waiting on `commit` only.  The writers register
their own filenames inside their bodies. -/
def cdda_encode (album : Album) (st : PState) : PState :=
  let st := st.protect "cdda" "album.bin"
  let p := cdda_add_chain st none 0 album.tracks
  let st := p.1
  let commitId := st.nextId
  let st := st.submit "cdda" .cddaCommit p.2.toList [] ["album.bin"]
  let st := st.submit "cdda" .cddaWriteCue [commitId] ["album.cue"] ["album.cue"]
  let st := st.submit "cdda" .cddaWriteKunaki [commitId] ["kunaki.cue"] ["kunaki.cue"]
  st.submit "cdda" .cddaWriteTsv [commitId] ["tracklist.tsv"] ["tracklist.tsv"]

/-- The `make_web_preview` submission in `process`: one build unit for
the preview format, waiting on a snapshot (`[*futures['preview']]`) of
every preview unit submitted so far; its body registers the artwork
renditions and player files it produces. -/
def make_web_preview_submit (env : Env) (st : PState) : PState :=
  st.submit "preview" .buildPreview (st.futures "preview") env.previewFiles env.previewFiles

/-- PHASE 2 of `process`: one `clean_subdir` unit per enabled format,
waiting on a snapshot (`[*futures[target]]`) of every unit of that
format submitted so far.  The Python `for target in formats` iterates
a set in unspecified order; the model fixes `ALL_TARGETS` order, which
is immaterial because the clean units touch disjoint keys. -/
def clean_phase (formats : List String) (st : PState) : PState :=
  formats.foldl (fun st t => st.submit t (.clean t) (st.futures t) [] []) st

/-- PHASE 3 of `process`: per distributable format in `formats`, a
butler upload unit (when butler is enabled and a target is set) and a
zip unit (when zip is enabled), both waiting on `futures[target]`
(which by now also holds the clean unit). -/
def dist_phase (cfg : Options) (formats : List String) (st : PState) : PState :=
  (DIST_TARGETS.filter (fun t => formats.contains t)).foldl (fun st t =>
    let st := if cfg.do_butler.getD false && truthyStr cfg.butler_target then
        st.submit "butler" (.butler t) (st.futures t) [] []
      else st
    if cfg.do_zip.getD false then st.submit "zip" (.zipf t) (st.futures t) [] []
    else st) st

/-- The result of a successful `process` call: the fully-coerced
configuration, the enabled format set, and the submission record. -/
structure ProcResult where
  config : Options
  formats : List String
  state : PState

instance : Inhabited ProcResult := ⟨⟨{}, [], {}⟩⟩

/-- Lines 532-534 of `process`: when butler is enabled but the tool
cannot be resolved (`config.butler_path and shutil.which(...)` falsy),
force-disable it with a warning. -/
def butler_gate (env : Env) (cfg : Options) : Options :=
  if cfg.do_butler.getD false && !(truthyStr cfg.butler_path && env.butler_found) then
    { cfg with do_butler := some false }
  else cfg

/-- PHASE 1 of `process` (lines 546-564): the encode submissions, the
cdda sub-pipeline and the preview build unit, in source order. -/
def pre_clean_state (env : Env) (cfg : Options) (album : Album) : PState :=
  let st := encode_tracks env cfg album {}
  let st := if cfg.do_cdda.getD false then cdda_encode album st else st
  if cfg.do_preview.getD false then make_web_preview_submit env st else st

/-- PHASES 1-3 of `process` (lines 546-594): the encode / cdda /
preview-build submissions, one clean unit per enabled format, and the
distribution (butler / zip) units, in source order. -/
def submit_phases (env : Env) (cfg : Options) (album : Album) (formats : List String) :
    PState :=
  let st := pre_clean_state env cfg album
  let st := if cfg.do_cleanup.getD false then clean_phase formats st else st
  dist_phase cfg formats st

/-- `process(config, album, pool, futures)`: coerce the configuration,
compute the enabled formats (the second resolution loop re-reads album
values, which after the coercion loop can no longer apply; the
translation keeps the fallback expression), force-disable butler when
the tool is unavailable, fail fast when nothing is enabled, then
submit all phases.  Directory creation (`os.makedirs`) is a filesystem
side effect outside the model. -/
def process (env : Env) (cfg0 : Options) (album : Album) : Except String ProcResult :=
  let cfg := coerceConfig cfg0 album
  let formats := ALL_TARGETS.filter
    (fun t => (cfg.doFlag t).getD ((album.doFlag t).getD true))
  let cfg := butler_gate env cfg
  if formats.isEmpty && !(cfg.do_cdda.getD false) then
    .error "No targets specified and nothing to do"
  else
    .ok { config := cfg, formats := formats, state := submit_phases env cfg album formats }

/-- Projection helpers for stating concrete facts about a `process`
result. -/
def getUnits : Except String ProcResult → List WorkUnit
  | .ok r => r.state.units
  | .error _ => []

/-- Submission-time protections of a `process` result. -/
def getProtections (e : Except String ProcResult) (fmt : String) : List String :=
  match e with
  | .ok r => r.state.protections fmt
  | .error _ => []

/-- Extract the payload of a successful `process` result. -/
def resOf (e : Except String ProcResult) : ProcResult :=
  match e with
  | .ok r => r
  | .error _ => default

/-! ## Execution semantics

The thread pool (`concurrent.futures.ThreadPoolExecutor`) captures an
exception raised inside a submitted callable on that unit's future and
never cancels sibling futures.  Every dependent body starts with
`wait_futures(deps)`, which calls `result()` on each dependency and
therefore re-raises (the very exception object of) the first
dependency that failed, before the body proper runs.  Consequently
each future's terminal outcome is a schedule-independent function of
the dependency graph and of which bodies fail intrinsically
(`failSet`). -/

/-- The terminal record of one future: its handle, the root cause of
its stored exception (`none` = success; `some r` = the exception
object originally raised by unit `r`, possibly re-raised along a
dependency chain), and whether the unit's own body ran
(`wait_futures` returned normally). -/
structure UnitResult where
  uid : Nat
  err : Option Nat
  bodyRan : Bool
deriving DecidableEq

/-- The error `wait_futures(deps)` propagates, given the records of
previously submitted units: the first dependency holding an
exception. -/
def depErrOf (acc : List UnitResult) (deps : List Nat) : Option Nat :=
  deps.findSome? (fun d => (acc.find? (fun r => r.uid == d)).bind (fun r => r.err))

/-- Fold computing every future's terminal record in submission
order. -/
def runResultsAux (failSet : Nat → Bool) (acc : List UnitResult) :
    List WorkUnit → List UnitResult
  | [] => acc
  | u :: us =>
    let de := depErrOf acc u.deps
    let e := match de with
      | some e => some e
      | none => if failSet u.id then some u.id else none
    runResultsAux failSet (acc ++ [{ uid := u.id, err := e, bodyRan := de.isNone }]) us

/-- Terminal records for a whole run: unit `u` fails with root `r`
when some dependency already failed with root `r` (propagation; the
body never runs), else with root `u.id` when its own body fails. -/
def runResults (failSet : Nat → Bool) (units : List WorkUnit) : List UnitResult :=
  runResultsAux failSet [] units

/-- The error aggregation of `cli.main` (lines 167-176): iterate all
futures, call `result()`, and append every raised exception to the
error list, with no de-duplication; the process exits nonzero iff the
list is nonempty.  Modelled in submission order (the real
`as_completed` order is a permutation, which no counted statement
below depends on). -/
def mainErrors (failSet : Nat → Bool) (units : List WorkUnit) : List Nat :=
  (runResults failSet units).filterMap (fun r => r.err)

/-- A completion order of the submitted units that the blocking waits
allow: a permutation of the unit handles in which every unit appears
after each handle its body blocks on. -/
def ValidSchedule (units : List WorkUnit) (sched : List Nat) : Prop :=
  sched.Nodup ∧
  (∀ u ∈ units, u.id ∈ sched) ∧
  (∀ i ∈ sched, ∃ u ∈ units, u.id = i) ∧
  (∀ u ∈ units, ∀ d ∈ u.deps, sched.indexOf d < sched.indexOf u.id)

instance (units : List WorkUnit) (sched : List Nat) : Decidable (ValidSchedule units sched) := by
  unfold ValidSchedule
  exact inferInstance

/-- The body of `clean_subdir` once `wait_futures` has returned: scan
the directory and remove exactly the entries whose names are not in
the protections set it was given.  Returns the removed names. -/
def clean_subdir (listing : List String) (allowed : List String) : List String :=
  listing.filter (fun name => !(allowed.contains name))

/-- `isProducer` is true for the units that write files into a format
output directory (encode, preview build, cdda steps); false for the
clean / butler / zip units. -/
def UnitKind.isProducer : UnitKind → Bool
  | .encode _ _ => true
  | .buildPreview => true
  | .cddaAdd _ => true
  | .cddaCommit => true
  | .cddaWriteCue => true
  | .cddaWriteKunaki => true
  | .cddaWriteTsv => true
  | .clean _ => false
  | .butler _ => false
  | .zipf _ => false

/-- The format a unit belongs to. -/
def UnitKind.fmt : UnitKind → String
  | .encode f _ => f
  | .buildPreview => "preview"
  | .clean f => f
  | .butler f => f
  | .zipf f => f
  | .cddaAdd _ => "cdda"
  | .cddaCommit => "cdda"
  | .cddaWriteCue => "cdda"
  | .cddaWriteKunaki => "cdda"
  | .cddaWriteTsv => "cdda"

/-- The contents of `protections[fmt]` observed by `clean_subdir`'s
scan: the names registered synchronously at submission time plus the
names registered inside the bodies of that format's producer units
(all of which have completed before the scan, being dependencies of
the clean unit). -/
def protectionsRun (st : PState) (fmt : String) : List String :=
  st.protections fmt ++
    ((st.units.filter (fun u => u.key == fmt && u.kind.isProducer)).map
      (fun u => u.bodyRegs)).flatten

/-! ## `util.run_encoder` (claim C7) -/

/-- A filesystem fragment: existing files with their mtimes. -/
def FileSys := List (String × Nat)

/-- `os.path.isfile`. -/
def isfile (fs : FileSys) (name : String) : Bool := (List.lookup name fs).isSome

/-- `os.stat(...).st_mtime`. -/
def getMtime (fs : FileSys) (name : String) : Nat := (List.lookup name fs).getD 0

/-- A (possibly partial) write of `name` at time `mtime`. -/
def setFile (fs : FileSys) (name : String) (mtime : Nat) : FileSys :=
  (name, mtime) :: List.filter (fun p => !(p.1 == name)) fs

/-- `os.remove`. -/
def removeFile (fs : FileSys) (name : String) : FileSys :=
  List.filter (fun p => !(p.1 == name)) fs

/-- `util.is_newer`: true when the destination is missing or the
source is strictly newer. -/
def is_newer (fs : FileSys) (src dest : String) : Bool :=
  if !(isfile fs dest) then true
  else decide (getMtime fs src > getMtime fs dest)

/-- How the ffmpeg subprocess of `run_encoder` terminates. -/
inductive SubprocessResult where
  | ok
  | calledProcessError
  | keyboardInterrupt
deriving DecidableEq

/-- `util.run_encoder`: raise `FileNotFoundError` when the input is
missing; skip when the output is up to date; otherwise run ffmpeg
(which writes the output file, completely or partially), and on a
subprocess failure or a `KeyboardInterrupt` delete the output file
before re-raising as `RuntimeError`.  The error branch carries the
resulting filesystem. -/
def run_encoder (fs : FileSys) (infile outfile : String) (now : Nat)
    (sub : SubprocessResult) : Except (String × FileSys) FileSys :=
  if !(isfile fs infile) then
    .error ("FileNotFoundError", fs)
  else if is_newer fs infile outfile then
    let fs1 := setFile fs outfile now
    match sub with
    | .ok => .ok fs1
    | .calledProcessError => .error ("RuntimeError: encoding error", removeFile fs1 outfile)
    | .keyboardInterrupt => .error ("RuntimeError: user aborted", removeFile fs1 outfile)
  else
    .ok fs

/-! ## Track mutation (claim C9) and the preview player (claim C8) -/

/-- The in-place track mutations of the `encode_tracks` loop (lines
402-409): add `artwork_path` when the track has artwork, and when
`lyrics` is a string naming an existing file, replace it with the list
of lines read from that file. -/
def track_prepare (input_dir : String) (isfileP : String → Bool)
    (read_lines : String → List String) (t : Track) : Track :=
  let t1 := match t.artwork with
    | some a => { t with artwork_path := some (pjoin input_dir a) }
    | none => t
  match t1.lyrics with
  | some (.str s) =>
    let lyricfile := pjoin input_dir s
    if isfileP lyricfile then { t1 with lyrics := some (.lines (read_lines lyricfile)) }
    else t1
  | _ => t1

/-- The `track['preview_mp3'] = preview_fname` mutation inside
`encode_preview_mp3`. -/
def preview_track_update (t : Track) (fname : String) : Track :=
  { t with preview_mp3 := some fname }

/-- The track list `make_web_preview` hands to the player template:
all hidden tracks are filtered out of (a deep copy of) the album. -/
def make_web_preview_tracks (album : Album) : List Track :=
  album.tracks.filter (fun t => !t.hidden)

/-! ## Invariants of the submission record -/

/-- Every submitted unit's handle is in the futures list of its key. -/
def MemInv (st : PState) : Prop := ∀ u ∈ st.units, u.id ∈ st.futures u.key

/-- Before the clean phase, every submitted unit is a producer filed
under its own format key. -/
def ProducersOnly (st : PState) : Prop :=
  ∀ u ∈ st.units, u.kind.isProducer = true ∧ u.key = u.kind.fmt

/-- Every filename a producer will write is either already registered
in the submission-time protections of its key or will be registered by
its own body before it completes. -/
def Cov (st : PState) : Prop :=
  ∀ u ∈ st.units, u.kind.isProducer = true →
    ∀ x ∈ u.produces, x ∈ st.protections u.key ∨ x ∈ u.bodyRegs

/-- A non-preview encode unit registers nothing from its body: its
output name is registered at submission time (by `out_path`). -/
def EncRegs (st : PState) : Prop :=
  ∀ u ∈ st.units, ∀ f i, u.kind = .encode f i → ¬f = "preview" → u.bodyRegs = []

def PhaseInv (st : PState) : Prop := MemInv st ∧ ProducersOnly st ∧ Cov st ∧ EncRegs st

/-- The dependency-completeness property of the clean units: every
producer of a format is among the handles that format's clean unit
blocks on first. -/
def CleanComplete (st : PState) : Prop :=
  ∀ c ∈ st.units, ∀ F, c.kind = .clean F →
    ∀ v ∈ st.units, v.kind.isProducer = true → v.kind.fmt = F → v.id ∈ c.deps

/-- Producers are filed under their own format key. -/
def ProdKeyOK (st : PState) : Prop :=
  ∀ u ∈ st.units, u.kind.isProducer = true → u.key = u.kind.fmt

/-- The units the add-track chain of `cdda.encode` submits, starting
at handle `base` with 0-based track position `k`: each unit waits on
its predecessor (the first one on `prev`). -/
def chainSpec (base k : Nat) (prev : List Nat) : Nat → List WorkUnit
  | 0 => []
  | Nat.succ m =>
    { id := base, key := "cdda", kind := .cddaAdd k, deps := prev,
      bodyRegs := [], produces := ["album.bin"] } ::
      chainSpec (base + 1) (k + 1) [base] m

/-! ## Concrete scenarios shared by witnesses and counterexamples -/

/-- Default oracle environment: butler unavailable, md5 constantly
`d41d8cd9`, slugification the identity, no extra preview files. -/
def env0 : Env := {}

/-- Preview-only configuration with cleanup enabled. -/
def cfgP : Options :=
  { input_dir := "in", output_dir := "out",
    do_preview := some true, do_mp3 := some false, do_ogg := some false,
    do_flac := some false, do_zip := some false, do_cdda := some false,
    do_butler := some false, do_cleanup := some true }

/-- A one-track album. -/
def album1 : Album :=
  { tracks := [{ filename := some "01 one.wav", title := some "One" }] }

/-- The clean unit submitted for the preview format in the
`cfgP`/`album1` run: it blocks on the preview encode unit (handle 0)
and the preview build unit (handle 1). -/
def cleanPreviewUnit : WorkUnit :=
  { id := 2, key := "preview", kind := .clean "preview", deps := [0, 1] }

/-- mp3 + preview configuration (the spec's hidden-track scenario). -/
def cfg8 : Options :=
  { input_dir := "in", output_dir := "out",
    do_preview := some true, do_mp3 := some true, do_ogg := some false,
    do_flac := some false, do_zip := some false, do_cdda := some false,
    do_butler := some false, do_cleanup := some false }

/-- A two-track album whose second track is hidden. -/
def album8 : Album :=
  { tracks := [{ filename := some "01.wav", title := some "Track 1" },
               { filename := some "02.wav", title := some "Track 2", hidden := true }] }

/-- cdda-only configuration with cleanup. -/
def cfgC : Options :=
  { input_dir := "in", output_dir := "out",
    do_preview := some false, do_mp3 := some false, do_ogg := some false,
    do_flac := some false, do_zip := some false, do_cdda := some true,
    do_butler := some false, do_cleanup := some true }

/-! ## Further concrete scenarios -/

/-- The futures dict of a `process` result. -/
def getFutures (e : Except String ProcResult) (key : String) : List Nat :=
  match e with
  | .ok r => r.state.futures key
  | .error _ => []

/-- mp3-only configuration with cleanup. -/
def cfgM : Options :=
  { input_dir := "in", output_dir := "out",
    do_preview := some false, do_mp3 := some true, do_ogg := some false,
    do_flac := some false, do_zip := some false, do_cdda := some false,
    do_butler := some false, do_cleanup := some true }

/-- mp3 + ogg configuration with cleanup (fault-isolation scenario). -/
def cfg4 : Options :=
  { input_dir := "in", output_dir := "out",
    do_preview := some false, do_mp3 := some true, do_ogg := some true,
    do_flac := some false, do_zip := some false, do_cdda := some false,
    do_butler := some false, do_cleanup := some true }

/-- A four-track album. -/
def album4 : Album :=
  { tracks := [{ filename := some "01.wav", title := some "T1" },
               { filename := some "02.wav", title := some "T2" },
               { filename := some "03.wav", title := some "T3" },
               { filename := some "04.wav", title := some "T4" }] }

/-- A configuration disabling every target. -/
def cfgNone : Options :=
  { do_preview := some false, do_mp3 := some false, do_ogg := some false,
    do_flac := some false, do_zip := some false, do_cdda := some false,
    do_butler := some false, do_cleanup := some false }

/-- A one-file filesystem for the `run_encoder` witness. -/
def fs7 : FileSys := [("in/01.wav", 5)]

/-- A track whose lyrics field names a lyrics file. -/
def trackLyr : Track := { lyrics := some (.str "01 one.txt") }

/-! ## Structural lemmas about submission -/

theorem submit_units (st : PState) (key : String) (kind : UnitKind) (deps : List Nat)
    (br pr : List String) :
    (st.submit key kind deps br pr).units =
      st.units ++ [{ id := st.nextId, key := key, kind := kind, deps := deps,
                     bodyRegs := br, produces := pr }] := rfl

theorem submit_protections (st : PState) (key : String) (kind : UnitKind) (deps : List Nat)
    (br pr : List String) :
    (st.submit key kind deps br pr).protections = st.protections := rfl

theorem protect_units (st : PState) (f n : String) : (st.protect f n).units = st.units := rfl

theorem protect_futures (st : PState) (f n : String) :
    (st.protect f n).futures = st.futures := rfl

theorem protect_nextId (st : PState) (f n : String) :
    (st.protect f n).nextId = st.nextId := rfl

theorem submit_futures_mono {st : PState} {k : String} {x : Nat} (key : String)
    (kind : UnitKind) (deps : List Nat) (br pr : List String)
    (h : x ∈ st.futures k) : x ∈ (st.submit key kind deps br pr).futures k := by
  simp only [PState.submit]
  by_cases hk : k = key
  · subst hk
    simp [h]
  · simp only [if_neg hk]
    exact h

theorem protect_protections_mono {st : PState} {k x : String} (f n : String)
    (h : x ∈ st.protections k) : x ∈ (st.protect f n).protections k := by
  simp only [PState.protect]
  by_cases hk : k = f
  · subst hk
    simp [h]
  · simp only [if_neg hk]
    exact h

theorem protect_self_mem (st : PState) (f n : String) :
    n ∈ (st.protect f n).protections f := by
  simp [PState.protect]

theorem phaseInv_empty : PhaseInv {} :=
  ⟨fun u hu => absurd hu (List.not_mem_nil u),
   fun u hu => absurd hu (List.not_mem_nil u),
   fun u hu => absurd hu (List.not_mem_nil u),
   fun u hu => absurd hu (List.not_mem_nil u)⟩

theorem phaseInv_submit {st : PState} {key : String} {kind : UnitKind} {deps : List Nat}
    {br pr : List String}
    (hkind : kind.isProducer = true) (hkey : key = kind.fmt)
    (hcov : ∀ x ∈ pr, x ∈ st.protections key ∨ x ∈ br)
    (hreg : ∀ f i, kind = .encode f i → ¬f = "preview" → br = [])
    (h : PhaseInv st) : PhaseInv (st.submit key kind deps br pr) := by
  obtain ⟨hm, hp, hc, he⟩ := h
  refine ⟨?_, ?_, ?_, ?_⟩
  · intro u hu
    rw [submit_units] at hu
    rcases List.mem_append.mp hu with hu | hu
    · exact submit_futures_mono key kind deps br pr (hm u hu)
    · simp only [List.mem_singleton] at hu
      subst hu
      simp [PState.submit]
  · intro u hu
    rw [submit_units] at hu
    rcases List.mem_append.mp hu with hu | hu
    · exact hp u hu
    · simp only [List.mem_singleton] at hu
      subst hu
      exact ⟨hkind, hkey⟩
  · intro u hu hprod x hx
    rw [submit_units] at hu
    rw [submit_protections]
    rcases List.mem_append.mp hu with hu | hu
    · exact hc u hu hprod x hx
    · simp only [List.mem_singleton] at hu
      subst hu
      exact hcov x hx
  · intro u hu f i hk hf
    rw [submit_units] at hu
    rcases List.mem_append.mp hu with hu | hu
    · exact he u hu f i hk hf
    · simp only [List.mem_singleton] at hu
      subst hu
      exact hreg f i hk hf

theorem phaseInv_protect {st : PState} (f n : String) (h : PhaseInv st) :
    PhaseInv (st.protect f n) := by
  obtain ⟨hm, hp, hc, he⟩ := h
  refine ⟨?_, ?_, ?_, ?_⟩
  · intro u hu
    rw [protect_units] at hu
    rw [protect_futures]
    exact hm u hu
  · intro u hu
    rw [protect_units] at hu
    exact hp u hu
  · intro u hu hprod x hx
    rw [protect_units] at hu
    rcases hc u hu hprod x hx with hx' | hx'
    · exact Or.inl (protect_protections_mono f n hx')
    · exact Or.inr hx'
  · intro u hu
    rw [protect_units] at hu
    exact he u hu

/-- Generic fold preservation. -/
theorem foldl_preserve {α : Type} {P : PState → Prop} (f : PState → α → PState)
    (hf : ∀ s a, P s → P (f s a)) :
    ∀ (l : List α) (s : PState), P s → P (l.foldl f s)
  | [], _, h => h
  | a :: l, s, h => foldl_preserve f hf l (f s a) (hf s a h)

theorem phaseInv_encode_format_step (fmt : String) (doIt hasInput : Bool) (base : String)
    (idx : Nat) {st : PState} (h : PhaseInv st) :
    PhaseInv (encode_format_step fmt doIt hasInput base idx st) := by
  unfold encode_format_step
  split
  · split
    · refine phaseInv_submit rfl rfl ?_ ?_ (phaseInv_protect fmt (base ++ "." ++ fmt) h)
      · intro x hx
        simp only [List.mem_singleton] at hx
        subst hx
        exact Or.inl (protect_self_mem st fmt (base ++ "." ++ fmt))
      · intro f i _ _
        rfl
    · exact phaseInv_protect fmt (base ++ "." ++ fmt) h
  · exact h

theorem phaseInv_encode_track_step (env : Env) (cfg : Options) (it : Nat × Track)
    {st : PState} (h : PhaseInv st) : PhaseInv (encode_track_step env cfg st it) := by
  simp only [encode_track_step]
  have h3 : PhaseInv (encode_format_step "flac" (cfg.do_flac.getD false)
      (truthyStr it.2.filename) (base_filename env it.1 it.2) it.1
      (encode_format_step "ogg" (cfg.do_ogg.getD false) (truthyStr it.2.filename)
        (base_filename env it.1 it.2) it.1
        (encode_format_step "mp3" (cfg.do_mp3.getD false) (truthyStr it.2.filename)
          (base_filename env it.1 it.2) it.1 st))) :=
    phaseInv_encode_format_step _ _ _ _ _
      (phaseInv_encode_format_step _ _ _ _ _
        (phaseInv_encode_format_step _ _ _ _ _ h))
  split
  · refine phaseInv_submit rfl rfl ?_ ?_ h3
    · intro x hx
      exact Or.inr hx
    · intro f i hk hf
      injection hk with h1 _
      exact absurd h1.symm hf
  · exact h3

theorem phaseInv_encode_tracks (env : Env) (cfg : Options) (album : Album)
    {st : PState} (h : PhaseInv st) : PhaseInv (encode_tracks env cfg album st) :=
  foldl_preserve (encode_track_step env cfg)
    (fun _ a hst => phaseInv_encode_track_step env cfg a hst)
    (List.enumFrom 1 album.tracks) st h

theorem phaseInv_cdda_add_chain (ts : List Track) (st : PState) (prev : Option Nat)
    (k : Nat) (h : PhaseInv st) (hb : "album.bin" ∈ st.protections "cdda") :
    PhaseInv (cdda_add_chain st prev k ts).1 ∧
      (cdda_add_chain st prev k ts).1.protections = st.protections := by
  induction ts generalizing st prev k with
  | nil => exact ⟨h, rfl⟩
  | cons t rest ih =>
    have h1 : PhaseInv (st.submit "cdda" (.cddaAdd k) prev.toList [] ["album.bin"]) := by
      refine phaseInv_submit rfl rfl ?_ ?_ h
      · intro x hx
        simp only [List.mem_singleton] at hx
        subst hx
        exact Or.inl hb
      · intro f i hk _
        cases hk
    have hb1 : "album.bin" ∈
        (st.submit "cdda" (.cddaAdd k) prev.toList [] ["album.bin"]).protections "cdda" := hb
    obtain ⟨hA, hB⟩ := ih (st.submit "cdda" (.cddaAdd k) prev.toList [] ["album.bin"])
      (some st.nextId) (k + 1) h1 hb1
    exact ⟨hA, hB⟩

theorem phaseInv_cdda_encode (album : Album) {st : PState} (h : PhaseInv st) :
    PhaseInv (cdda_encode album st) := by
  unfold cdda_encode
  obtain ⟨h1, hpr⟩ := phaseInv_cdda_add_chain album.tracks (st.protect "cdda" "album.bin")
    none 0 (phaseInv_protect "cdda" "album.bin" h) (protect_self_mem st "cdda" "album.bin")
  have hb1 : "album.bin" ∈
      (cdda_add_chain (st.protect "cdda" "album.bin") none 0 album.tracks).1.protections
        "cdda" := by
    rw [hpr]
    exact protect_self_mem st "cdda" "album.bin"
  refine phaseInv_submit rfl rfl (fun x hx => Or.inr hx) (fun f i hk _ => by cases hk)
    (phaseInv_submit rfl rfl (fun x hx => Or.inr hx) (fun f i hk _ => by cases hk)
      (phaseInv_submit rfl rfl (fun x hx => Or.inr hx) (fun f i hk _ => by cases hk)
        (phaseInv_submit rfl rfl ?_ (fun f i hk _ => by cases hk) h1)))
  intro x hx
  simp only [List.mem_singleton] at hx
  subst hx
  exact Or.inl hb1

theorem phaseInv_preview (env : Env) {st : PState} (h : PhaseInv st) :
    PhaseInv (make_web_preview_submit env st) := by
  unfold make_web_preview_submit
  exact phaseInv_submit rfl rfl (fun x hx => Or.inr hx) (fun f i hk _ => by cases hk) h

theorem phaseInv_pre_clean (env : Env) (cfg : Options) (album : Album) :
    PhaseInv (pre_clean_state env cfg album) := by
  have h0 : PhaseInv (encode_tracks env cfg album {}) :=
    phaseInv_encode_tracks env cfg album phaseInv_empty
  have h1 : PhaseInv (if cfg.do_cdda.getD false then
      cdda_encode album (encode_tracks env cfg album {})
    else encode_tracks env cfg album {}) := by
    split
    · exact phaseInv_cdda_encode album h0
    · exact h0
  simp only [pre_clean_state]
  split
  · exact phaseInv_preview env h1
  · exact h1

/-! ## The clean and distribution phases -/

theorem clean_phase_props (stE : PState) (formats : List String) :
    (∀ u ∈ (clean_phase formats stE).units,
      u ∈ stE.units ∨ (∃ F, u.kind = .clean F ∧ ∀ x ∈ stE.futures F, x ∈ u.deps)) ∧
    (clean_phase formats stE).protections = stE.protections ∧
    (∀ k x, x ∈ stE.futures k → x ∈ (clean_phase formats stE).futures k) := by
  unfold clean_phase
  refine @foldl_preserve String
    (fun st' => (∀ u ∈ st'.units,
        u ∈ stE.units ∨ (∃ F, u.kind = .clean F ∧ ∀ x ∈ stE.futures F, x ∈ u.deps)) ∧
      st'.protections = stE.protections ∧
      (∀ k x, x ∈ stE.futures k → x ∈ st'.futures k))
    _ ?_ formats stE ⟨fun u hu => Or.inl hu, rfl, fun k x hx => hx⟩
  intro st' t ih
  obtain ⟨ihu, ihp, ihf⟩ := ih
  refine ⟨?_, ihp, ?_⟩
  · intro u hu
    rw [submit_units] at hu
    rcases List.mem_append.mp hu with hu | hu
    · exact ihu u hu
    · simp only [List.mem_singleton] at hu
      subst hu
      exact Or.inr ⟨t, rfl, fun x hx => ihf t x hx⟩
  · intro k x hx
    exact submit_futures_mono _ _ _ _ _ (ihf k x hx)

theorem dist_phase_props (st0 : PState) (cfg : Options) (formats : List String) :
    (∀ u ∈ (dist_phase cfg formats st0).units,
      u ∈ st0.units ∨ (∃ f, u.kind = .butler f) ∨ (∃ f, u.kind = .zipf f)) ∧
    (dist_phase cfg formats st0).protections = st0.protections := by
  unfold dist_phase
  refine @foldl_preserve String
    (fun st' => (∀ u ∈ st'.units,
        u ∈ st0.units ∨ (∃ f, u.kind = .butler f) ∨ (∃ f, u.kind = .zipf f)) ∧
      st'.protections = st0.protections)
    _ ?_ _ st0 ⟨fun u hu => Or.inl hu, rfl⟩
  intro st' t ih
  obtain ⟨ihu, ihp⟩ := ih
  have step1 : ∀ st'' : PState,
      ((∀ u ∈ st''.units, u ∈ st0.units ∨ (∃ f, u.kind = .butler f) ∨
          (∃ f, u.kind = .zipf f)) ∧ st''.protections = st0.protections) →
      (∀ u ∈ (if cfg.do_zip.getD false then
          st''.submit "zip" (.zipf t) (st''.futures t) [] [] else st'').units,
        u ∈ st0.units ∨ (∃ f, u.kind = .butler f) ∨ (∃ f, u.kind = .zipf f)) ∧
      (if cfg.do_zip.getD false then
          st''.submit "zip" (.zipf t) (st''.futures t) [] [] else st'').protections =
        st0.protections := by
    intro st'' ih'
    obtain ⟨ihu', ihp'⟩ := ih'
    split
    · refine ⟨?_, ihp'⟩
      intro u hu
      rw [submit_units] at hu
      rcases List.mem_append.mp hu with hu | hu
      · exact ihu' u hu
      · simp only [List.mem_singleton] at hu
        subst hu
        exact Or.inr (Or.inr ⟨t, rfl⟩)
    · exact ⟨ihu', ihp'⟩
  refine step1 _ ?_
  split
  · refine ⟨?_, ihp⟩
    intro u hu
    rw [submit_units] at hu
    rcases List.mem_append.mp hu with hu | hu
    · exact ihu u hu
    · simp only [List.mem_singleton] at hu
      subst hu
      exact Or.inr (Or.inl ⟨t, rfl⟩)
  · exact ⟨ihu, ihp⟩

/-- The key structural facts about the final submission state, proved
for an arbitrary pre-clean state satisfying the phase invariant. -/
theorem post_phases_core (stE : PState) (hinv : PhaseInv stE) (cfg : Options)
    (formats : List String) (docleanup : Bool) :
    ProdKeyOK (dist_phase cfg formats (if docleanup then clean_phase formats stE else stE)) ∧
    Cov (dist_phase cfg formats (if docleanup then clean_phase formats stE else stE)) ∧
    EncRegs (dist_phase cfg formats (if docleanup then clean_phase formats stE else stE)) ∧
    CleanComplete (dist_phase cfg formats (if docleanup then clean_phase formats stE else stE)) := by
  obtain ⟨hm, hp, hc, he⟩ := hinv
  -- facts about the (possibly skipped) clean phase
  have hC : (∀ u ∈ (if docleanup then clean_phase formats stE else stE).units,
        u ∈ stE.units ∨ (∃ F, u.kind = .clean F ∧ ∀ x ∈ stE.futures F, x ∈ u.deps)) ∧
      (if docleanup then clean_phase formats stE else stE).protections = stE.protections := by
    split
    · exact ⟨(clean_phase_props stE formats).1, (clean_phase_props stE formats).2.1⟩
    · exact ⟨fun u hu => Or.inl hu, rfl⟩
  obtain ⟨hCu, hCp⟩ := hC
  obtain ⟨hDu, hDp⟩ :=
    dist_phase_props (if docleanup then clean_phase formats stE else stE) cfg formats
  -- classify any unit of the final state
  have classify : ∀ u ∈ (dist_phase cfg formats
        (if docleanup then clean_phase formats stE else stE)).units,
      u ∈ stE.units ∨ (∃ F, u.kind = .clean F ∧ ∀ x ∈ stE.futures F, x ∈ u.deps) ∨
        (∃ f, u.kind = .butler f) ∨ (∃ f, u.kind = .zipf f) := by
    intro u hu
    rcases hDu u hu with hu' | hb | hz
    · rcases hCu u hu' with hu'' | hcl
      · exact Or.inl hu''
      · exact Or.inr (Or.inl hcl)
    · exact Or.inr (Or.inr (Or.inl hb))
    · exact Or.inr (Or.inr (Or.inr hz))
  have hprot : (dist_phase cfg formats
      (if docleanup then clean_phase formats stE else stE)).protections = stE.protections :=
    hDp.trans hCp
  -- a producer unit of the final state was submitted before the clean phase
  have prodPre : ∀ u ∈ (dist_phase cfg formats
        (if docleanup then clean_phase formats stE else stE)).units,
      u.kind.isProducer = true → u ∈ stE.units := by
    intro u hu hprod
    rcases classify u hu with h1 | ⟨F, hk, _⟩ | ⟨f, hk⟩ | ⟨f, hk⟩
    · exact h1
    · rw [hk] at hprod
      cases hprod
    · rw [hk] at hprod
      cases hprod
    · rw [hk] at hprod
      cases hprod
  refine ⟨?_, ?_, ?_, ?_⟩
  · intro u hu hprod
    exact (hp u (prodPre u hu hprod)).2
  · intro u hu hprod x hx
    rw [hprot]
    exact hc u (prodPre u hu hprod) hprod x hx
  · intro u hu f i hk hf
    rcases classify u hu with h1 | ⟨F, hk', _⟩ | ⟨g, hk'⟩ | ⟨g, hk'⟩
    · exact he u h1 f i hk hf
    · rw [hk'] at hk
      cases hk
    · rw [hk'] at hk
      cases hk
    · rw [hk'] at hk
      cases hk
  · intro c hcm F hk v hv hprod hfmt
    rcases classify c hcm with h1 | ⟨F', hk', hdep⟩ | ⟨g, hk'⟩ | ⟨g, hk'⟩
    · have := (hp c h1).1
      rw [hk] at this
      cases this
    · have hFF : F' = F := by
        rw [hk] at hk'
        injection hk' with h2
        exact h2.symm
      rw [hFF] at hdep
      have hvE : v ∈ stE.units := prodPre v hv hprod
      have hvid : v.id ∈ stE.futures F := by
        have h3 := hm v hvE
        rw [(hp v hvE).2, hfmt] at h3
        exact h3
      exact hdep v.id hvid
    · rw [hk'] at hk
      cases hk
    · rw [hk'] at hk
      cases hk

/-- Instantiation of the core facts for `submit_phases`. -/
theorem submit_phases_core (env : Env) (cfg : Options) (album : Album)
    (formats : List String) :
    ProdKeyOK (submit_phases env cfg album formats) ∧
    Cov (submit_phases env cfg album formats) ∧
    EncRegs (submit_phases env cfg album formats) ∧
    CleanComplete (submit_phases env cfg album formats) := by
  have h := post_phases_core (pre_clean_state env cfg album)
    (phaseInv_pre_clean env cfg album) cfg formats (cfg.do_cleanup.getD false)
  simpa only [submit_phases] using h

/-- Destructuring a successful `process` run. -/
theorem process_ok_state (env : Env) (cfg : Options) (album : Album) (res : ProcResult)
    (h : process env cfg album = .ok res) :
    ∃ cfg' formats', res.config = cfg' ∧ res.formats = formats' ∧
      res.state = submit_phases env cfg' album formats' := by
  simp only [process] at h
  split at h
  · cases h
  · cases h
    exact ⟨_, _, rfl, rfl, rfl⟩

theorem mem_protectionsRun_left {st : PState} {F x : String}
    (h : x ∈ st.protections F) : x ∈ protectionsRun st F :=
  List.mem_append.mpr (Or.inl h)

theorem mem_protectionsRun_right {st : PState} {F x : String} {v : WorkUnit}
    (hv : v ∈ st.units) (hkey : v.key = F) (hprod : v.kind.isProducer = true)
    (hx : x ∈ v.bodyRegs) : x ∈ protectionsRun st F := by
  refine List.mem_append.mpr (Or.inr ?_)
  rw [List.mem_flatten]
  refine ⟨v.bodyRegs, ?_, hx⟩
  refine List.mem_map.mpr ⟨v, ?_, rfl⟩
  refine List.mem_filter.mpr ⟨hv, ?_⟩
  simp [hkey, hprod]

/-! ## The cdda chain (claim C10) -/

theorem submit_units_mono {st : PState} (key : String) (kind : UnitKind) (deps : List Nat)
    (br pr : List String) {u : WorkUnit} (h : u ∈ st.units) :
    u ∈ (st.submit key kind deps br pr).units := by
  rw [submit_units]
  exact List.mem_append_left _ h

theorem cdda_add_chain_spec (ts : List Track) (st : PState) (prev : Option Nat) (k : Nat) :
    (cdda_add_chain st prev k ts).1.units =
      st.units ++ chainSpec st.nextId k prev.toList ts.length ∧
    (cdda_add_chain st prev k ts).1.nextId = st.nextId + ts.length ∧
    (ts.length = 0 → (cdda_add_chain st prev k ts).2 = prev) ∧
    (∀ m, ts.length = m + 1 → (cdda_add_chain st prev k ts).2 = some (st.nextId + m)) := by
  induction ts generalizing st prev k with
  | nil =>
    refine ⟨by simp [cdda_add_chain, chainSpec], rfl, fun _ => rfl, ?_⟩
    intro m hm
    exact absurd hm (by simp)
  | cons t rest ih =>
    obtain ⟨ihu, ihn, ihl0, ihlS⟩ :=
      ih (st.submit "cdda" (.cddaAdd k) prev.toList [] ["album.bin"]) (some st.nextId) (k + 1)
    refine ⟨?_, ?_, ?_, ?_⟩
    · rw [show cdda_add_chain st prev k (t :: rest) =
        cdda_add_chain (st.submit "cdda" (.cddaAdd k) prev.toList [] ["album.bin"])
          (some st.nextId) (k + 1) rest from rfl]
      rw [ihu, submit_units]
      simp [chainSpec, List.append_assoc, PState.submit]
    · rw [show cdda_add_chain st prev k (t :: rest) =
        cdda_add_chain (st.submit "cdda" (.cddaAdd k) prev.toList [] ["album.bin"])
          (some st.nextId) (k + 1) rest from rfl]
      rw [ihn]
      show st.nextId + 1 + rest.length = st.nextId + (rest.length + 1)
      omega
    · intro h0
      exact absurd h0 (by simp)
    · intro m hm
      simp only [List.length_cons] at hm
      rw [show cdda_add_chain st prev k (t :: rest) =
        cdda_add_chain (st.submit "cdda" (.cddaAdd k) prev.toList [] ["album.bin"])
          (some st.nextId) (k + 1) rest from rfl]
      cases hr : rest.length with
      | zero =>
        have hm0 : m = 0 := by omega
        subst hm0
        rw [ihl0 hr, Nat.add_zero]
      | succ kk =>
        have hmk : m = kk + 1 := by omega
        subst hmk
        rw [ihlS kk hr]
        show some (st.nextId + 1 + kk) = some (st.nextId + (kk + 1))
        congr 1
        omega

theorem chainSpec_exists (n : Nat) : ∀ (base k : Nat) (prev : List Nat) (j : Nat), j < n →
    ∃ u ∈ chainSpec base k prev n, u.id = base + j ∧ u.kind = .cddaAdd (k + j) ∧
      (j = 0 → u.deps = prev) ∧ (∀ m, j = m + 1 → u.deps = [base + m]) := by
  induction n with
  | zero =>
    intro _ _ _ j hj
    exact absurd hj (Nat.not_lt_zero j)
  | succ m ih =>
    intro base k prev j hj
    rw [chainSpec]
    cases j with
    | zero =>
      refine ⟨_, List.mem_cons_self _ _, by simp, by simp, fun _ => rfl, ?_⟩
      intro mm hmm
      exact absurd hmm (by omega)
    | succ m' =>
      obtain ⟨u, hu, hid, hkind, hdeps0, hdepsS⟩ :=
        ih (base + 1) (k + 1) [base] m' (Nat.lt_of_succ_lt_succ hj)
      refine ⟨u, List.mem_cons_of_mem _ hu, ?_, ?_, ?_, ?_⟩
      · rw [hid]
        omega
      · rw [hkind]
        congr 1
        omega
      · intro h0
        exact absurd h0 (by omega)
      · intro mm hmm
        cases m' with
        | zero =>
          have h0 : mm = 0 := by omega
          subst h0
          rw [hdeps0 rfl, Nat.add_zero]
        | succ kk =>
          have hk : mm = kk + 1 := by omega
          subst hk
          rw [hdepsS kk rfl]
          show [base + 1 + kk] = [base + (kk + 1)]
          simp only [List.cons.injEq, and_true]
          omega

/-- Membership facts about the full cdda sub-pipeline: the chained
add units, the commit unit waiting on the last add, and the three
writer units waiting on the commit. -/
theorem cdda_encode_mem (album : Album) (st : PState) :
    (∀ j, j < album.tracks.length → ∃ u ∈ (cdda_encode album st).units,
      u.id = st.nextId + j ∧ u.kind = .cddaAdd j ∧
      (j = 0 → u.deps = []) ∧ (∀ m, j = m + 1 → u.deps = [st.nextId + m])) ∧
    (∃ u ∈ (cdda_encode album st).units,
      u.id = st.nextId + album.tracks.length ∧ u.kind = .cddaCommit ∧
      (album.tracks.length = 0 → u.deps = []) ∧
      (∀ m, album.tracks.length = m + 1 → u.deps = [st.nextId + m])) ∧
    (∃ u ∈ (cdda_encode album st).units, u.id = st.nextId + album.tracks.length + 1 ∧
      u.kind = .cddaWriteCue ∧ u.deps = [st.nextId + album.tracks.length]) ∧
    (∃ u ∈ (cdda_encode album st).units, u.id = st.nextId + album.tracks.length + 2 ∧
      u.kind = .cddaWriteKunaki ∧ u.deps = [st.nextId + album.tracks.length]) ∧
    (∃ u ∈ (cdda_encode album st).units, u.id = st.nextId + album.tracks.length + 3 ∧
      u.kind = .cddaWriteTsv ∧ u.deps = [st.nextId + album.tracks.length]) := by
  obtain ⟨hu, hn, hl0, hlS⟩ :=
    cdda_add_chain_spec album.tracks (st.protect "cdda" "album.bin") none 0
  simp only [cdda_encode]
  generalize hP : cdda_add_chain (st.protect "cdda" "album.bin") none 0 album.tracks = P
    at hu hn hl0 hlS ⊢
  refine ⟨?_, ?_, ?_, ?_, ?_⟩
  · intro j hj
    obtain ⟨u, humem, hid, hkind, hdeps0, hdepsS⟩ := chainSpec_exists album.tracks.length
      st.nextId 0 [] j hj
    refine ⟨u, ?_, hid, ?_, hdeps0, hdepsS⟩
    · apply submit_units_mono
      apply submit_units_mono
      apply submit_units_mono
      apply submit_units_mono
      rw [hu]
      exact List.mem_append_right _ humem
    · rw [hkind]
      congr 1
      omega
  · refine ⟨{ id := P.1.nextId
              key := "cdda"
              kind := .cddaCommit
              deps := P.2.toList
              bodyRegs := []
              produces := ["album.bin"] }, ?_, ?_, rfl, ?_, ?_⟩
    · apply submit_units_mono
      apply submit_units_mono
      apply submit_units_mono
      rw [submit_units]
      exact List.mem_append_right _ (List.mem_singleton.mpr rfl)
    · show P.1.nextId = st.nextId + album.tracks.length
      rw [hn, protect_nextId]
    · intro h0
      show P.2.toList = []
      rw [hl0 h0]
      rfl
    · intro m hm
      show P.2.toList = [st.nextId + m]
      rw [hlS m hm]
      rfl
  · refine ⟨{ id := P.1.nextId + 1
              key := "cdda"
              kind := .cddaWriteCue
              deps := [P.1.nextId]
              bodyRegs := ["album.cue"]
              produces := ["album.cue"] }, ?_, ?_, rfl, ?_⟩
    · apply submit_units_mono
      apply submit_units_mono
      rw [submit_units]
      exact List.mem_append_right _ (List.mem_singleton.mpr rfl)
    · show P.1.nextId + 1 = st.nextId + album.tracks.length + 1
      rw [hn, protect_nextId]
    · show [P.1.nextId] = [st.nextId + album.tracks.length]
      rw [hn, protect_nextId]
  · refine ⟨{ id := P.1.nextId + 1 + 1
              key := "cdda"
              kind := .cddaWriteKunaki
              deps := [P.1.nextId]
              bodyRegs := ["kunaki.cue"]
              produces := ["kunaki.cue"] }, ?_, ?_, rfl, ?_⟩
    · apply submit_units_mono
      rw [submit_units]
      exact List.mem_append_right _ (List.mem_singleton.mpr rfl)
    · show P.1.nextId + 1 + 1 = st.nextId + album.tracks.length + 2
      rw [hn, protect_nextId]
    · show [P.1.nextId] = [st.nextId + album.tracks.length]
      rw [hn, protect_nextId]
  · refine ⟨{ id := P.1.nextId + 1 + 1 + 1
              key := "cdda"
              kind := .cddaWriteTsv
              deps := [P.1.nextId]
              bodyRegs := ["tracklist.tsv"]
              produces := ["tracklist.tsv"] }, ?_, ?_, rfl, ?_⟩
    · rw [submit_units]
      exact List.mem_append_right _ (List.mem_singleton.mpr rfl)
    · show P.1.nextId + 1 + 1 + 1 = st.nextId + album.tracks.length + 3
      rw [hn, protect_nextId]
    · show [P.1.nextId] = [st.nextId + album.tracks.length]
      rw [hn, protect_nextId]

theorem clean_phase_units_mono (formats : List String) {st : PState} {u : WorkUnit}
    (h : u ∈ st.units) : u ∈ (clean_phase formats st).units := by
  unfold clean_phase
  refine @foldl_preserve String (fun st' => u ∈ st'.units) _ ?_ formats st h
  intro s t hs
  exact submit_units_mono _ _ _ _ _ hs

theorem dist_phase_units_mono (cfg : Options) (formats : List String) {st : PState}
    {u : WorkUnit} (h : u ∈ st.units) : u ∈ (dist_phase cfg formats st).units := by
  unfold dist_phase
  refine @foldl_preserve String (fun st' => u ∈ st'.units) _ ?_ _ st h
  intro s t hs
  split
  · split
    · exact submit_units_mono _ _ _ _ _ (submit_units_mono _ _ _ _ _ hs)
    · exact submit_units_mono _ _ _ _ _ hs
  · split
    · exact submit_units_mono _ _ _ _ _ hs
    · exact hs

/-- Units submitted by the cdda sub-pipeline stay in the final
submission record. -/
theorem submit_phases_mem_of_cdda (env : Env) (cfg : Options) (album : Album)
    (formats : List String) (hc : cfg.do_cdda.getD false = true) {u : WorkUnit}
    (h : u ∈ (cdda_encode album (encode_tracks env cfg album {})).units) :
    u ∈ (submit_phases env cfg album formats).units := by
  simp only [submit_phases, pre_clean_state, hc, if_true]
  apply dist_phase_units_mono
  split
  · apply clean_phase_units_mono
    split
    · exact submit_units_mono _ _ _ _ _ h
    · exact h
  · split
    · exact submit_units_mono _ _ _ _ _ h
    · exact h

/-- Ordering consequences of the cdda dependency chain, for any
completion order the blocking waits allow. -/
theorem cdda_chain_ordering (units : List WorkUnit) (base n : Nat)
    (hadds : ∀ j, j < n → ∃ u ∈ units, u.id = base + j ∧
      (∀ m, j = m + 1 → u.deps = [base + m]))
    (hcommit : ∃ u ∈ units, u.id = base + n ∧
      (∀ m, n = m + 1 → u.deps = [base + m]))
    (hcue : ∃ u ∈ units, u.id = base + n + 1 ∧ u.deps = [base + n])
    (hkunaki : ∃ u ∈ units, u.id = base + n + 2 ∧ u.deps = [base + n])
    (htsv : ∃ u ∈ units, u.id = base + n + 3 ∧ u.deps = [base + n])
    (sched : List Nat) (hs : ValidSchedule units sched) :
    (∀ i j, i < j → j < n → sched.indexOf (base + i) < sched.indexOf (base + j)) ∧
    (∀ j, j < n → sched.indexOf (base + j) < sched.indexOf (base + n)) ∧
    (sched.indexOf (base + n) < sched.indexOf (base + n + 1) ∧
     sched.indexOf (base + n) < sched.indexOf (base + n + 2) ∧
     sched.indexOf (base + n) < sched.indexOf (base + n + 3)) := by
  have step : ∀ m, m + 1 < n →
      sched.indexOf (base + m) < sched.indexOf (base + (m + 1)) := by
    intro m hm
    obtain ⟨u, hu, hid, hdepsS⟩ := hadds (m + 1) hm
    have hd : base + m ∈ u.deps := by
      rw [hdepsS m rfl]
      exact List.mem_singleton.mpr rfl
    have h4 := hs.2.2.2 u hu _ hd
    rw [hid] at h4
    exact h4
  have chain : ∀ j, j < n → ∀ i, i < j →
      sched.indexOf (base + i) < sched.indexOf (base + j) := by
    intro j
    induction j with
    | zero =>
      intro _ i hi
      exact absurd hi (Nat.not_lt_zero i)
    | succ m ihm =>
      intro hjn i hi
      rcases Nat.lt_succ_iff_lt_or_eq.mp hi with h1 | h1
      · exact Nat.lt_trans (ihm (Nat.lt_of_succ_lt hjn) i h1) (step m hjn)
      · rw [h1]
        exact step m hjn
  have commitAll : ∀ j, j < n →
      sched.indexOf (base + j) < sched.indexOf (base + n) := by
    intro j hj
    obtain ⟨m, hm⟩ : ∃ m, n = m + 1 := ⟨n - 1, by omega⟩
    obtain ⟨u, hu, hid, hdepsS⟩ := hcommit
    have hd : base + m ∈ u.deps := by
      rw [hdepsS m hm]
      exact List.mem_singleton.mpr rfl
    have h4 := hs.2.2.2 u hu _ hd
    rw [hid] at h4
    have hjm : j < m + 1 := by omega
    rcases Nat.lt_succ_iff_lt_or_eq.mp hjm with h1 | h1
    · exact Nat.lt_trans (chain m (by omega) j h1) h4
    · rw [h1]
      exact h4
  have writer : ∀ (u : WorkUnit), u ∈ units → u.deps = [base + n] →
      ∀ targetId, u.id = targetId →
        sched.indexOf (base + n) < sched.indexOf targetId := by
    intro u hu hdeps targetId hid
    have hd : base + n ∈ u.deps := by
      rw [hdeps]
      exact List.mem_singleton.mpr rfl
    have h4 := hs.2.2.2 u hu _ hd
    rw [hid] at h4
    exact h4
  obtain ⟨u1, hu1, hid1, hdeps1⟩ := hcue
  obtain ⟨u2, hu2, hid2, hdeps2⟩ := hkunaki
  obtain ⟨u3, hu3, hid3, hdeps3⟩ := htsv
  exact ⟨fun i j hij hjn => chain j hjn i hij, commitAll,
    writer u1 hu1 hdeps1 _ hid1, writer u2 hu2 hdeps2 _ hid2, writer u3 hu3 hdeps3 _ hid3⟩

/-! ## Claim C1 -/

/-- Claim C1: for every enabled format `F`, the `clean-F` unit blocks,
as its first action, on the handle of every `encode-F` / `build-F`
unit (so in every schedule the blocking waits allow, all of them are
terminal before the clean body runs), and the clean body removes
exactly the directory entries whose names are not in `F`'s protections
set (submission-time registrations plus the body registrations of the
completed producer units). -/
theorem clean_waits_and_removes_complement (env : Env) (cfg : Options) (album : Album)
    (res : ProcResult) (h : process env cfg album = .ok res) (c : WorkUnit)
    (hc : c ∈ res.state.units) (F : String) (hk : c.kind = .clean F) :
    (∀ v ∈ res.state.units, v.kind.isProducer = true → v.kind.fmt = F → v.id ∈ c.deps) ∧
    (∀ sched, ValidSchedule res.state.units sched →
      ∀ v ∈ res.state.units, v.kind.isProducer = true → v.kind.fmt = F →
        sched.indexOf v.id < sched.indexOf c.id) ∧
    (∀ listing name, name ∈ clean_subdir listing (protectionsRun res.state F) ↔
      name ∈ listing ∧ ¬name ∈ protectionsRun res.state F) := by
  obtain ⟨cfg', formats', _, _, hst⟩ := process_ok_state env cfg album res h
  obtain ⟨_, _, _, hclean⟩ := submit_phases_core env cfg' album formats'
  rw [hst] at hc ⊢
  refine ⟨?_, ?_, ?_⟩
  · intro v hv hprod hfmt
    exact hclean c hc F hk v hv hprod hfmt
  · intro sched hs v hv hprod hfmt
    exact hs.2.2.2 c hc v.id (hclean c hc F hk v hv hprod hfmt)
  · intro listing name
    simp [clean_subdir, List.mem_filter]

/-- Witness for C1 on the concrete preview run: the hypotheses hold
and the preview producers (handles 0 and 1) are among the clean unit's
dependency handles. -/
theorem clean_waits_and_removes_complement_witness :
    process env0 cfgP album1 = Except.ok (resOf (process env0 cfgP album1)) ∧
    cleanPreviewUnit ∈ (resOf (process env0 cfgP album1)).state.units ∧
    (∀ v ∈ (resOf (process env0 cfgP album1)).state.units,
      v.kind.isProducer = true → v.kind.fmt = "preview" → v.id ∈ cleanPreviewUnit.deps) :=
  ⟨by rfl, by decide,
   (clean_waits_and_removes_complement env0 cfgP album1 _ (by rfl) cleanPreviewUnit
     (by decide) "preview" rfl).1⟩

/-! ## Claim C2 -/

/-- Counterexample to C2 as stated: in the preview run, the unit that
encodes the preview mp3 registers its (md5-derived) output filename
inside its asynchronous body (`bodyRegs`), and at the end of
submission the submission-time protections set of the preview format
is still empty - registration did not happen synchronously at
submission time. -/
theorem preview_protection_registered_in_body :
    (getUnits (process env0 cfgP album1)).map (fun u => (u.kind, u.bodyRegs, u.produces)) =
      [(.encode "preview" 1, ["d41d8cd9.mp3"], ["d41d8cd9.mp3"]),
       (.buildPreview, [], []),
       (.clean "preview", [], [])] ∧
    getProtections (process env0 cfgP album1) "preview" = [] := by
  exact ⟨by rfl, by rfl⟩

/-- Claim C2, amended: by the time `clean-F` begins comparing, the
protections set it observes (`protectionsRun`) contains every filename
any producer unit of `F` will ever produce, and every producer of `F`
precedes `clean-F` in every schedule the blocking waits allow; but
only the non-preview encode units register their filenames
synchronously at submission time - the preview (and cdda cue/tsv)
filenames are registered inside the asynchronous unit bodies, which
nonetheless complete before the clean unit's scan because the clean
unit waits on them. -/
theorem protections_complete_before_clean_scan (env : Env) (cfg : Options) (album : Album)
    (res : ProcResult) (h : process env cfg album = .ok res) (F : String) :
    (∀ v ∈ res.state.units, v.kind.isProducer = true → v.kind.fmt = F →
      ∀ x ∈ v.produces, x ∈ protectionsRun res.state F) ∧
    (∀ c ∈ res.state.units, c.kind = .clean F →
      ∀ sched, ValidSchedule res.state.units sched →
        ∀ v ∈ res.state.units, v.kind.isProducer = true → v.kind.fmt = F →
          sched.indexOf v.id < sched.indexOf c.id) ∧
    (∀ v ∈ res.state.units, ∀ f i, v.kind = .encode f i → ¬f = "preview" →
      ∀ x ∈ v.produces, x ∈ res.state.protections f) := by
  obtain ⟨cfg', formats', _, _, hst⟩ := process_ok_state env cfg album res h
  obtain ⟨hkey, hcov, hreg, hclean⟩ := submit_phases_core env cfg' album formats'
  rw [hst]
  refine ⟨?_, ?_, ?_⟩
  · intro v hv hprod hfmt x hx
    rcases hcov v hv hprod x hx with h1 | h1
    · apply mem_protectionsRun_left
      rw [hkey v hv hprod, hfmt] at h1
      exact h1
    · exact mem_protectionsRun_right hv ((hkey v hv hprod).trans hfmt) hprod h1
  · intro c hcm hk sched hs v hv hprod hfmt
    exact hs.2.2.2 c hcm v.id (hclean c hcm F hk v hv hprod hfmt)
  · intro v hv f i hk hf x hx
    have hprod : v.kind.isProducer = true := by
      rw [hk]
      rfl
    rcases hcov v hv hprod x hx with h1 | h1
    · have hkf : v.key = f := by
        have h2 := hkey v hv hprod
        rw [hk] at h2
        exact h2
      rw [hkf] at h1
      exact h1
    · rw [hreg v hv f i hk hf] at h1
      cases h1

/-- Witness for the amended C2: on the concrete preview run, the
md5-derived preview filename is indeed in the set `clean-preview`
observes. -/
theorem protections_complete_before_clean_scan_witness :
    process env0 cfgP album1 = Except.ok (resOf (process env0 cfgP album1)) ∧
    "d41d8cd9.mp3" ∈ protectionsRun (resOf (process env0 cfgP album1)).state "preview" := by
  refine ⟨by rfl, ?_⟩
  exact (protections_complete_before_clean_scan env0 cfgP album1 _ (by rfl) "preview").1
    { id := 0, key := "preview", kind := .encode "preview" 1,
      deps := [], bodyRegs := ["d41d8cd9.mp3"], produces := ["d41d8cd9.mp3"] }
    (by decide) rfl rfl "d41d8cd9.mp3" (by decide)

/-! ## Claim C10 -/

/-- Claim C10: the cdda `add_track` units form a dependency chain
(each unit waits on the previous track's unit), the `commit` unit
waits on the last add, and the cue / kunaki-cue / tsv writer units
wait on commit; hence in every schedule the blocking waits allow,
track audio is appended to the bin file in album track order
regardless of pool interleaving, commit completes only after every
add, and the writers run only after commit. -/
theorem cdda_serializes_tracks (env : Env) (cfg : Options) (album : Album)
    (res : ProcResult) (h : process env cfg album = .ok res)
    (hcdda : res.config.do_cdda.getD false = true) :
    ∃ base,
      (∀ j, j < album.tracks.length → ∃ u ∈ res.state.units,
        u.id = base + j ∧ u.kind = .cddaAdd j ∧
        (j = 0 → u.deps = []) ∧ (∀ m, j = m + 1 → u.deps = [base + m])) ∧
      (∃ u ∈ res.state.units, u.id = base + album.tracks.length ∧
        u.kind = .cddaCommit ∧
        (album.tracks.length = 0 → u.deps = []) ∧
        (∀ m, album.tracks.length = m + 1 → u.deps = [base + m])) ∧
      (∃ u ∈ res.state.units, u.id = base + album.tracks.length + 1 ∧
        u.kind = .cddaWriteCue ∧ u.deps = [base + album.tracks.length]) ∧
      (∃ u ∈ res.state.units, u.id = base + album.tracks.length + 2 ∧
        u.kind = .cddaWriteKunaki ∧ u.deps = [base + album.tracks.length]) ∧
      (∃ u ∈ res.state.units, u.id = base + album.tracks.length + 3 ∧
        u.kind = .cddaWriteTsv ∧ u.deps = [base + album.tracks.length]) ∧
      (∀ sched, ValidSchedule res.state.units sched →
        (∀ i j, i < j → j < album.tracks.length →
          sched.indexOf (base + i) < sched.indexOf (base + j)) ∧
        (∀ j, j < album.tracks.length →
          sched.indexOf (base + j) < sched.indexOf (base + album.tracks.length)) ∧
        (sched.indexOf (base + album.tracks.length) <
            sched.indexOf (base + album.tracks.length + 1) ∧
         sched.indexOf (base + album.tracks.length) <
            sched.indexOf (base + album.tracks.length + 2) ∧
         sched.indexOf (base + album.tracks.length) <
            sched.indexOf (base + album.tracks.length + 3))) := by
  obtain ⟨cfg', formats', hcfg, _, hst⟩ := process_ok_state env cfg album res h
  rw [hcfg] at hcdda
  rw [hst]
  obtain ⟨hadds, hcommit, hcue, hkunaki, htsv⟩ :=
    cdda_encode_mem album (encode_tracks env cfg' album {})
  have lift : ∀ {u : WorkUnit},
      u ∈ (cdda_encode album (encode_tracks env cfg' album {})).units →
      u ∈ (submit_phases env cfg' album formats').units :=
    fun hu => submit_phases_mem_of_cdda env cfg' album formats' hcdda hu
  have hA : ∀ j, j < album.tracks.length →
      ∃ u ∈ (submit_phases env cfg' album formats').units,
        u.id = (encode_tracks env cfg' album {}).nextId + j ∧ u.kind = .cddaAdd j ∧
        (j = 0 → u.deps = []) ∧
        (∀ m, j = m + 1 → u.deps = [(encode_tracks env cfg' album {}).nextId + m]) := by
    intro j hj
    obtain ⟨u, hu, hrest⟩ := hadds j hj
    exact ⟨u, lift hu, hrest⟩
  have hB : ∃ u ∈ (submit_phases env cfg' album formats').units,
      u.id = (encode_tracks env cfg' album {}).nextId + album.tracks.length ∧
      u.kind = .cddaCommit ∧
      (album.tracks.length = 0 → u.deps = []) ∧
      (∀ m, album.tracks.length = m + 1 →
        u.deps = [(encode_tracks env cfg' album {}).nextId + m]) := by
    obtain ⟨u, hu, hrest⟩ := hcommit
    exact ⟨u, lift hu, hrest⟩
  have hC : ∃ u ∈ (submit_phases env cfg' album formats').units,
      u.id = (encode_tracks env cfg' album {}).nextId + album.tracks.length + 1 ∧
      u.kind = .cddaWriteCue ∧
      u.deps = [(encode_tracks env cfg' album {}).nextId + album.tracks.length] := by
    obtain ⟨u, hu, hrest⟩ := hcue
    exact ⟨u, lift hu, hrest⟩
  have hD : ∃ u ∈ (submit_phases env cfg' album formats').units,
      u.id = (encode_tracks env cfg' album {}).nextId + album.tracks.length + 2 ∧
      u.kind = .cddaWriteKunaki ∧
      u.deps = [(encode_tracks env cfg' album {}).nextId + album.tracks.length] := by
    obtain ⟨u, hu, hrest⟩ := hkunaki
    exact ⟨u, lift hu, hrest⟩
  have hE : ∃ u ∈ (submit_phases env cfg' album formats').units,
      u.id = (encode_tracks env cfg' album {}).nextId + album.tracks.length + 3 ∧
      u.kind = .cddaWriteTsv ∧
      u.deps = [(encode_tracks env cfg' album {}).nextId + album.tracks.length] := by
    obtain ⟨u, hu, hrest⟩ := htsv
    exact ⟨u, lift hu, hrest⟩
  exact ⟨(encode_tracks env cfg' album {}).nextId, hA, hB, hC, hD, hE,
    fun sched hs => cdda_chain_ordering _ _ _
      (fun j hj => (hA j hj).elim fun u hu => ⟨u, hu.1, hu.2.1, hu.2.2.2.2⟩)
      (hB.elim fun u hu => ⟨u, hu.1, hu.2.1, hu.2.2.2.2⟩)
      (hC.elim fun u hu => ⟨u, hu.1, hu.2.1, hu.2.2.2⟩)
      (hD.elim fun u hu => ⟨u, hu.1, hu.2.1, hu.2.2.2⟩)
      (hE.elim fun u hu => ⟨u, hu.1, hu.2.1, hu.2.2.2⟩)
      sched hs⟩

/-- Witness for C10 on a concrete two-track cdda run. -/
theorem cdda_serializes_tracks_witness :
    process env0 cfgC album8 = Except.ok (resOf (process env0 cfgC album8)) ∧
    (resOf (process env0 cfgC album8)).config.do_cdda.getD false = true ∧
    (∃ base, ∀ sched,
      ValidSchedule (resOf (process env0 cfgC album8)).state.units sched →
      ∀ i j, i < j → j < album8.tracks.length →
        sched.indexOf (base + i) < sched.indexOf (base + j)) := by
  refine ⟨by rfl, by rfl, ?_⟩
  obtain ⟨base, _, _, _, _, _, hord⟩ :=
    cdda_serializes_tracks env0 cfgC album8 _ (by rfl) (by rfl)
  exact ⟨base, fun sched hs => (hord sched hs).1⟩

/-! ## Error aggregation lemmas (claim C3) -/

theorem runResultsAux_roots (failSet : Nat → Bool) :
    ∀ (units : List WorkUnit) (acc : List UnitResult),
      (∀ r ∈ acc, ∀ e, r.err = some e → failSet e = true) →
      ∀ r ∈ runResultsAux failSet acc units, ∀ e, r.err = some e → failSet e = true := by
  intro units
  induction units with
  | nil =>
    intro acc hacc
    exact hacc
  | cons u us ih =>
    intro acc hacc
    rw [runResultsAux]
    apply ih
    intro r hr e he
    rcases List.mem_append.mp hr with hr | hr
    · exact hacc r hr e he
    · simp only [List.mem_singleton] at hr
      subst hr
      simp only at he
      cases hde : depErrOf acc u.deps with
      | some e' =>
        rw [hde] at he
        injection he with he'
        subst he'
        unfold depErrOf at hde
        obtain ⟨d, _, hfind⟩ := List.exists_of_findSome?_eq_some hde
        cases hfr : acc.find? (fun r' => r'.uid == d) with
        | none =>
          rw [hfr] at hfind
          cases hfind
        | some r' =>
          rw [hfr] at hfind
          simp only [Option.bind] at hfind
          exact hacc r' (List.mem_of_find?_eq_some hfr) e' hfind
      | none =>
        rw [hde] at he
        have he2 : (if failSet u.id = true then some u.id else none) = some e := he
        by_cases hf : failSet u.id = true
        · rw [if_pos hf] at he2
          injection he2 with he'
          subst he'
          exact hf
        · rw [if_neg hf] at he2
          cases he2

theorem mainErrors_are_root_causes (failSet : Nat → Bool) (units : List WorkUnit) :
    ∀ e ∈ mainErrors failSet units, failSet e = true := by
  intro e he
  unfold mainErrors at he
  obtain ⟨r, hr, hre⟩ := List.mem_filterMap.mp he
  exact runResultsAux_roots failSet units []
    (fun r' hr' => absurd hr' (List.not_mem_nil r')) r hr e hre

theorem count_filterMap_err (e : Nat) :
    ∀ l : List UnitResult,
      (l.filterMap (fun r => r.err)).count e =
        (l.filter (fun r => r.err == some e)).length := by
  intro l
  induction l with
  | nil => rfl
  | cons r t ih =>
    cases hre : r.err with
    | none => simp [List.filterMap_cons, List.filter_cons, hre, ih]
    | some x =>
      by_cases hx : x = e
      · subst hx
        simp [List.filterMap_cons, List.filter_cons, hre, List.count_cons, ih]
      · simp [List.filterMap_cons, List.filter_cons, hre, List.count_cons, ih, hx]

theorem mainErrors_empty_iff (failSet : Nat → Bool) (units : List WorkUnit) :
    mainErrors failSet units = [] ↔ ∀ r ∈ runResults failSet units, r.err = none := by
  unfold mainErrors
  exact List.filterMap_eq_nil_iff

/-! ## Claim C3 -/

/-- Counterexample to C3 as stated: one root failure (the mp3 encode
unit, handle 0) appears twice in the aggregated error list of
`cli.main` - once from the failing future itself and once re-raised
by the dependent clean unit.  No de-duplication happens anywhere. -/
theorem error_report_duplicates_root :
    ((getUnits (process env0 cfgM album1)).map (fun u => (u.id, u.kind, u.deps)) =
      [(0, .encode "mp3" 1, ([] : List Nat)), (1, .clean "mp3", [0])]) ∧
    mainErrors (fun i => i == 0) (getUnits (process env0 cfgM album1)) = [0, 0] :=
  ⟨by rfl, by rfl⟩

/-- Claim C3, amended: the CLI's aggregate error list has one entry
per future that resolved with an exception, so a single root failure
appears once for itself plus once per dependent unit that re-raised
it (no de-duplication by identity is performed); every reported entry
is, by identity, the exception of a unit whose own body failed; and
the run is reported as failing iff the list is nonempty. -/
theorem error_report_entries (failSet : Nat → Bool) (units : List WorkUnit) :
    (∀ e ∈ mainErrors failSet units, failSet e = true) ∧
    (∀ e, (mainErrors failSet units).count e =
      ((runResults failSet units).filter (fun r => r.err == some e)).length) ∧
    (mainErrors failSet units = [] ↔ ∀ r ∈ runResults failSet units, r.err = none) :=
  ⟨mainErrors_are_root_causes failSet units,
   fun e => count_filterMap_err e (runResults failSet units),
   mainErrors_empty_iff failSet units⟩

/-- Witness for the amended C3 on the concrete failing run. -/
theorem error_report_entries_witness :
    ((fun i => i == 0) 0 : Bool) = true ∧
    (mainErrors (fun i => i == 0) (getUnits (process env0 cfgM album1))).count 0 =
      ((runResults (fun i => i == 0) (getUnits (process env0 cfgM album1))).filter
        (fun r => r.err == some 0)).length :=
  ⟨(error_report_entries (fun i => i == 0) (getUnits (process env0 cfgM album1))).1 0
     (by decide),
   (error_report_entries (fun i => i == 0) (getUnits (process env0 cfgM album1))).2.1 0⟩

/-! ## Claim C4 -/

/-- Claim C4: on the four-track mp3+ogg run where only the encode-mp3
unit of track 3 (handle 4) fails intrinsically: every other encode
unit and both per-format clean units of the unaffected format run
their bodies and succeed; the dependent clean-mp3 unit (handle 8)
does not run its own body (`bodyRan = false`) and resolves with the
propagated prerequisite failure (root cause 4). -/
theorem encode_failure_isolated :
    ((getUnits (process env0 cfg4 album4)).map (fun u => (u.id, u.key, u.kind, u.deps)) =
      [(0, "mp3", .encode "mp3" 1, ([] : List Nat)), (1, "ogg", .encode "ogg" 1, []),
       (2, "mp3", .encode "mp3" 2, []), (3, "ogg", .encode "ogg" 2, []),
       (4, "mp3", .encode "mp3" 3, []), (5, "ogg", .encode "ogg" 3, []),
       (6, "mp3", .encode "mp3" 4, []), (7, "ogg", .encode "ogg" 4, []),
       (8, "mp3", .clean "mp3", [0, 2, 4, 6]), (9, "ogg", .clean "ogg", [1, 3, 5, 7])]) ∧
    runResults (fun i => i == 4) (getUnits (process env0 cfg4 album4)) =
      [⟨0, none, true⟩, ⟨1, none, true⟩, ⟨2, none, true⟩, ⟨3, none, true⟩,
       ⟨4, some 4, true⟩, ⟨5, none, true⟩, ⟨6, none, true⟩, ⟨7, none, true⟩,
       ⟨8, some 4, false⟩, ⟨9, none, true⟩] :=
  ⟨by rfl, by rfl⟩

/-! ## Claim C5 -/

theorem butler_gate_do_cdda (env : Env) (cfg : Options) :
    (butler_gate env cfg).do_cdda = cfg.do_cdda := by
  unfold butler_gate
  split <;> rfl

/-- Claim C5: when target resolution leaves the enabled format set
empty and cdda disabled, `process` raises its configuration error
before any work unit is submitted (the error return carries no
submission record at all). -/
theorem no_targets_fails_before_submission (env : Env) (cfg : Options) (album : Album)
    (h1 : (ALL_TARGETS.filter (fun t =>
      ((coerceConfig cfg album).doFlag t).getD ((album.doFlag t).getD true))).isEmpty = true)
    (h2 : (coerceConfig cfg album).do_cdda.getD false = false) :
    process env cfg album = .error "No targets specified and nothing to do" := by
  simp [process, butler_gate_do_cdda, h1, h2]

/-- Witness for C5: the all-disabled configuration fails fast. -/
theorem no_targets_fails_before_submission_witness :
    ((ALL_TARGETS.filter (fun t =>
      ((coerceConfig cfgNone album1).doFlag t).getD
        ((album1.doFlag t).getD true))).isEmpty = true) ∧
    process env0 cfgNone album1 = .error "No targets specified and nothing to do" :=
  ⟨by decide,
   no_targets_fails_before_submission env0 cfgNone album1 (by decide) (by decide)⟩

/-! ## Claim C6 -/

/-- Counterexample to C6 as stated: with no caller and no album value,
the butler target resolves to disabled, while the claim's "default is
true for every target except cdda" formula yields `true` - butler's
built-in default is the truthiness of the album's `butler_target`,
not `true`. -/
theorem butler_default_not_true :
    (coerceConfig {} {}).do_butler = some false ∧
    ((none : Option Bool).getD ((none : Option Bool).getD true)) = true :=
  ⟨rfl, rfl⟩

theorem process_ok_config (env : Env) (cfg : Options) (album : Album) (res : ProcResult)
    (h : process env cfg album = .ok res) :
    res.config = butler_gate env (coerceConfig cfg album) := by
  simp only [process] at h
  split at h
  · cases h
  · cases h
    rfl

theorem butler_gate_do_butler (env : Env) (c : Options) (b : Bool)
    (hc : c.do_butler = some b) :
    (butler_gate env c).do_butler =
      some (b && (truthyStr c.butler_path && env.butler_found)) := by
  unfold butler_gate
  rw [hc]
  cases b <;> cases hav : truthyStr c.butler_path && env.butler_found <;> simp [hc, hav]

/-- Claim C6, amended: for preview / mp3 / ogg / flac / zip / cleanup
the enabled state is caller value, else album value, else `true`; for
cdda the built-in default is `false`; for butler the built-in default
is the truthiness of the album's `butler_target` (not `true`), and
`process` additionally force-disables butler when the tool cannot be
resolved. -/
theorem target_resolution (cfg : Options) (album : Album) :
    (coerceConfig cfg album).do_preview =
      some (cfg.do_preview.getD (album.do_preview.getD true)) ∧
    (coerceConfig cfg album).do_mp3 = some (cfg.do_mp3.getD (album.do_mp3.getD true)) ∧
    (coerceConfig cfg album).do_ogg = some (cfg.do_ogg.getD (album.do_ogg.getD true)) ∧
    (coerceConfig cfg album).do_flac = some (cfg.do_flac.getD (album.do_flac.getD true)) ∧
    (coerceConfig cfg album).do_zip = some (cfg.do_zip.getD (album.do_zip.getD true)) ∧
    (coerceConfig cfg album).do_cleanup =
      some (cfg.do_cleanup.getD (album.do_cleanup.getD true)) ∧
    (coerceConfig cfg album).do_cdda = some (cfg.do_cdda.getD (album.do_cdda.getD false)) ∧
    (coerceConfig cfg album).do_butler =
      some (cfg.do_butler.getD (album.do_butler.getD (truthyStr album.butler_target))) ∧
    (∀ env res, process env cfg album = .ok res →
      res.config.do_butler = some
        ((cfg.do_butler.getD (album.do_butler.getD (truthyStr album.butler_target))) &&
         (truthyStr cfg.butler_path && env.butler_found))) := by
  refine ⟨rfl, rfl, rfl, rfl, rfl, rfl, rfl, rfl, ?_⟩
  intro env res h
  rw [process_ok_config env cfg album res h]
  exact butler_gate_do_butler env (coerceConfig cfg album) _ rfl

/-- Witness for the amended C6 on a concrete run. -/
theorem target_resolution_witness :
    process env0 cfgP album1 = Except.ok (resOf (process env0 cfgP album1)) ∧
    (resOf (process env0 cfgP album1)).config.do_butler = some false := by
  refine ⟨by rfl, ?_⟩
  have h := (target_resolution cfgP album1).2.2.2.2.2.2.2.2 env0 _ (by rfl)
  simpa using h

/-! ## Claim C7 -/

theorem lookup_removeFile (name : String) :
    ∀ fs : FileSys, List.lookup name (List.filter (fun p => !(p.1 == name)) fs) = none := by
  intro fs
  induction fs with
  | nil => rfl
  | cons p t ih =>
    by_cases hp : p.1 = name
    · simp [List.filter_cons, hp, ih]
    · simp only [List.filter_cons]
      have hp' : (!(p.1 == name)) = true := by simp [hp]
      rw [if_pos hp']
      have hp2 : (name == p.1) = false := by
        simp
        exact fun he => hp he.symm
      simp [List.lookup, hp2, ih]

theorem isfile_removeFile (fs : FileSys) (name : String) :
    isfile (removeFile fs name) name = false := by
  unfold isfile removeFile
  rw [lookup_removeFile]
  rfl

/-- Claim C7: whenever the encoder subprocess of `run_encoder` fails
or is interrupted mid-write, the incomplete output file is deleted
before the error propagates - the resulting filesystem has no file at
the declared output path. -/
theorem run_encoder_removes_partial_output (fs : FileSys) (infile outfile : String)
    (now : Nat) (sub : SubprocessResult) (h1 : isfile fs infile = true)
    (h2 : is_newer fs infile outfile = true) (h3 : sub ≠ .ok) :
    ∃ msg fs', run_encoder fs infile outfile now sub = .error (msg, fs') ∧
      isfile fs' outfile = false := by
  unfold run_encoder
  rw [h1, h2]
  cases sub with
  | ok => exact absurd rfl h3
  | calledProcessError =>
    exact ⟨"RuntimeError: encoding error", removeFile (setFile fs outfile now) outfile,
      by simp, isfile_removeFile (setFile fs outfile now) outfile⟩
  | keyboardInterrupt =>
    exact ⟨"RuntimeError: user aborted", removeFile (setFile fs outfile now) outfile,
      by simp, isfile_removeFile (setFile fs outfile now) outfile⟩

/-- Witness for C7 on a concrete failing encode. -/
theorem run_encoder_removes_partial_output_witness :
    isfile fs7 "in/01.wav" = true ∧ is_newer fs7 "in/01.wav" "out/01.mp3" = true ∧
    (∃ msg fs', run_encoder fs7 "in/01.wav" "out/01.mp3" 9 .calledProcessError =
      .error (msg, fs') ∧ isfile fs' "out/01.mp3" = false) :=
  ⟨by decide, by decide,
   run_encoder_removes_partial_output fs7 "in/01.wav" "out/01.mp3" 9 .calledProcessError
     (by decide) (by decide) (by decide)⟩

/-! ## Claim C8 -/

/-- Claim C8: for a two-track album with targets mp3 + preview and
track 2 hidden, the mp3 encode group has two units (handles 0 and 2),
the preview encode group has one unit (handle 1, track 2 excluded),
the build-preview unit (handle 3) blocks exactly on that one unit and
in every schedule the blocking waits allow runs only after it
completes, and the generated preview player lists only track 1. -/
theorem hidden_track_scenario :
    ((getUnits (process env0 cfg8 album8)).map (fun u => (u.id, u.key, u.kind, u.deps)) =
      [(0, "mp3", .encode "mp3" 1, ([] : List Nat)),
       (1, "preview", .encode "preview" 1, []),
       (2, "mp3", .encode "mp3" 2, []),
       (3, "preview", .buildPreview, [1])]) ∧
    (getFutures (process env0 cfg8 album8) "mp3" = [0, 2]) ∧
    (getFutures (process env0 cfg8 album8) "preview" = [1, 3]) ∧
    ((make_web_preview_tracks album8).map (fun t => t.title) = [some "Track 1"]) ∧
    (∀ sched, ValidSchedule (getUnits (process env0 cfg8 album8)) sched →
      sched.indexOf 1 < sched.indexOf 3) := by
  refine ⟨by rfl, by rfl, by rfl, by rfl, ?_⟩
  intro sched hs
  exact hs.2.2.2 { id := 3, key := "preview", kind := .buildPreview, deps := [1] }
    (by decide) 1 (by decide)

/-- Witness for C8's scheduling clause at the submission order. -/
theorem hidden_track_scenario_witness :
    ValidSchedule (getUnits (process env0 cfg8 album8)) [0, 1, 2, 3] ∧
    List.indexOf 1 [0, 1, 2, 3] < List.indexOf 3 [0, 1, 2, 3] :=
  ⟨by decide, hidden_track_scenario.2.2.2.2 [0, 1, 2, 3] (by decide)⟩

/-! ## Claim C9 -/

/-- Counterexample to C9 as stated: the per-track mutation of
`encode_tracks` replaces the caller-supplied `lyrics` value (a
filename string) with the list of lines read from that file when it
exists - a caller-supplied field's value is changed in place, not
merely a derived field added. -/
theorem track_lyrics_replaced :
    (track_prepare "in" (fun _ => true) (fun _ => ["la la la"]) trackLyr).lyrics =
      some (.lines ["la la la"]) ∧
    trackLyr.lyrics = some (.str "01 one.txt") ∧
    (track_prepare "in" (fun _ => true) (fun _ => ["la la la"]) trackLyr).lyrics ≠
      trackLyr.lyrics :=
  ⟨rfl, rfl, by decide⟩

/-- Claim C9, amended: the pipeline's per-track mutations (on the
deep copy `process` makes of the album) never remove a field and
leave every caller-supplied field's value unchanged except `lyrics`:
`artwork_path` and `preview_mp3` are added as derived fields, and a
string `lyrics` value naming an existing file is replaced in place by
that file's lines. -/
theorem track_mutation_additive (input_dir : String) (isfileP : String → Bool)
    (read_lines : String → List String) (t : Track) (name : String) :
    ((track_prepare input_dir isfileP read_lines t).filename = t.filename) ∧
    ((track_prepare input_dir isfileP read_lines t).title = t.title) ∧
    ((track_prepare input_dir isfileP read_lines t).artist = t.artist) ∧
    ((track_prepare input_dir isfileP read_lines t).genre = t.genre) ∧
    ((track_prepare input_dir isfileP read_lines t).artwork = t.artwork) ∧
    ((track_prepare input_dir isfileP read_lines t).hidden = t.hidden) ∧
    ((track_prepare input_dir isfileP read_lines t).preview = t.preview) ∧
    ((track_prepare input_dir isfileP read_lines t).preview_mp3 = t.preview_mp3) ∧
    ((track_prepare input_dir isfileP read_lines t).lyrics.isSome = t.lyrics.isSome) ∧
    (t.artwork = none → (track_prepare input_dir isfileP read_lines t).artwork_path =
      t.artwork_path) ∧
    (∀ a, t.artwork = some a → (track_prepare input_dir isfileP read_lines t).artwork_path =
      some (pjoin input_dir a)) ∧
    (∀ s, t.lyrics = some (.str s) → isfileP (pjoin input_dir s) = false →
      (track_prepare input_dir isfileP read_lines t).lyrics = t.lyrics) ∧
    (∀ s, t.lyrics = some (.str s) → isfileP (pjoin input_dir s) = true →
      (track_prepare input_dir isfileP read_lines t).lyrics =
        some (.lines (read_lines (pjoin input_dir s)))) ∧
    (∀ ls, t.lyrics = some (.lines ls) →
      (track_prepare input_dir isfileP read_lines t).lyrics = t.lyrics) ∧
    ((preview_track_update t name).preview_mp3 = some name ∧
     (preview_track_update t name).filename = t.filename ∧
     (preview_track_update t name).lyrics = t.lyrics) := by
  obtain ⟨fn, ti, art, gen, aw, ly, hid, pv, ap, pm⟩ := t
  simp only [track_prepare, preview_track_update]
  cases aw with
  | none =>
    cases ly with
    | none => simp
    | some l =>
      cases l with
      | str s' =>
        by_cases hf : isfileP (pjoin input_dir s') = true <;> simp [hf]
      | lines ls' => simp
  | some a' =>
    cases ly with
    | none => simp
    | some l =>
      cases l with
      | str s' =>
        by_cases hf : isfileP (pjoin input_dir s') = true <;> simp [hf]
      | lines ls' => simp

/-- Witness for the amended C9 on the concrete lyrics track. -/
theorem track_mutation_additive_witness :
    (track_prepare "in" (fun _ => true) (fun _ => ["la"]) trackLyr).lyrics.isSome =
      trackLyr.lyrics.isSome ∧
    (preview_track_update trackLyr "abc.mp3").preview_mp3 = some "abc.mp3" := by
  have h := track_mutation_additive "in" (fun _ => true) (fun _ => ["la"]) trackLyr "abc.mp3"
  exact ⟨h.2.2.2.2.2.2.2.2.1, h.2.2.2.2.2.2.2.2.2.2.2.2.2.2.1⟩

end Bandcrash
